import Mathlib

/-!
Verification of the NHANES ETL pipeline (XPT-to-CSV conversion and
data preprocessing notebooks).  Tables are embedded as lists of rows,
numeric cell values as `ℚ`, and a missing value (pandas `NaN`) as
`none` in an `Option ℚ` cell.
-/

/-! ## Exam aggregator (Lean/Fat Mass table)

The notebook filters the concatenated Lean/Fat Mass table to rows with
`exam_status == 1` and no missing values, groups by `id`, and for each
subject takes `scipy.stats.mode` of the field if the modal count
exceeds 1, else the arithmetic mean. -/

/-- A row of the concatenated Lean/Fat Mass table.  Cells other than the
subject identifier may be missing. -/
structure LFRow where
  id : Nat
  exam_status : Option ℚ
  total_fat_mass : Option ℚ
  total_lean_mass : Option ℚ
deriving DecidableEq

/-- Row predicate for `lean_fat_data[lean_fat_data.exam_status == 1].dropna()`:
exam status equals 1 and no field is missing. -/
def validLF (r : LFRow) : Bool :=
  decide (r.exam_status = some 1) && r.total_fat_mass.isSome && r.total_lean_mass.isSome

/-- The filtered Lean/Fat Mass table. -/
def filtered_lean_fat_data (df : List LFRow) : List LFRow :=
  df.filter validLF

/-- The values of one field for one subject (the group produced by
`groupby` restricted to a column). -/
def subjectValues (df : List LFRow) (i : Nat) (f : LFRow → Option ℚ) : List ℚ :=
  (df.filter (fun r => r.id == i)).filterMap f

/-- Arithmetic mean of a list of values (`Series.mean`). -/
def mean (vs : List ℚ) : ℚ := vs.sum / vs.length

/-- The count of the most frequent value (`scipy.stats.mode(...).count[0]`). -/
def modeCount (vs : List ℚ) : Nat :=
  (vs.map (fun v => vs.count v)).foldr max 0

/-- The values attaining the maximal count. -/
def modeCandidates (vs : List ℚ) : List ℚ :=
  vs.filter (fun v => vs.count v = modeCount vs)

/-- The statistical mode (`scipy.stats.mode(...).mode[0]`): scipy resolves
ties by returning the smallest of the most frequent values. -/
def modeVal (vs : List ℚ) : ℚ :=
  match modeCandidates vs with
  | [] => 0
  | x :: xs => xs.foldl min x

/-- One field's aggregated value for one subject: the mode when its count
exceeds 1, else the mean. -/
def aggValue (vs : List ℚ) : ℚ :=
  if 1 < modeCount vs then modeVal vs else mean vs

/-- A row of the aggregated Lean/Fat Mass table. -/
structure AggRow where
  id : Nat
  total_fat_mass : ℚ
  total_lean_mass : ℚ
deriving DecidableEq

/-- The aggregated Lean/Fat Mass table: one row per distinct subject
identifier of the filtered table. -/
def aggregated_lean_fat_data (df : List LFRow) : List AggRow :=
  ((filtered_lean_fat_data df).map LFRow.id).dedup.map (fun i =>
    { id := i
      total_fat_mass := aggValue (subjectValues (filtered_lean_fat_data df) i LFRow.total_fat_mass)
      total_lean_mass := aggValue (subjectValues (filtered_lean_fat_data df) i LFRow.total_lean_mass) })

lemma foldl_min_mem (xs : List ℚ) (x : ℚ) : xs.foldl min x ∈ x :: xs := by
  induction xs generalizing x with
  | nil => simp
  | cons y ys ih =>
    have h := ih (min x y)
    simp only [List.foldl_cons]
    rcases List.mem_cons.mp h with h1 | h1
    · rw [h1]
      rcases min_choice x y with h2 | h2 <;> rw [h2]
      · exact List.mem_cons_self _ _
      · exact List.mem_cons.mpr (Or.inr (List.mem_cons_self _ _))
    · exact List.mem_cons.mpr (Or.inr (List.mem_cons.mpr (Or.inr h1)))

lemma foldr_max_mem (l : List Nat) (h : l ≠ []) : l.foldr max 0 ∈ l := by
  induction l with
  | nil => exact absurd rfl h
  | cons a as ih =>
    by_cases has : as = []
    · subst has; simp
    · have hmem := ih has
      rcases max_choice a (as.foldr max 0) with h2 | h2 <;>
        simp only [List.foldr_cons, h2]
      · exact List.mem_cons_self a as
      · exact List.mem_cons.mpr (Or.inr hmem)

lemma le_foldr_max {a : Nat} {l : List Nat} (h : a ∈ l) : a ≤ l.foldr max 0 := by
  induction l with
  | nil => cases h
  | cons b bs ih =>
    rcases List.mem_cons.mp h with h1 | h1
    · subst h1; exact le_max_left _ _
    · exact le_trans (ih h1) (le_max_right _ _)

lemma count_le_modeCount {v : ℚ} {vs : List ℚ} (h : v ∈ vs) :
    vs.count v ≤ modeCount vs :=
  le_foldr_max (List.mem_map.mpr ⟨v, h, rfl⟩)

lemma modeCandidates_ne_nil {vs : List ℚ} (h : vs ≠ []) :
    modeCandidates vs ≠ [] := by
  have hmap : vs.map (fun v => vs.count v) ≠ [] := by
    simpa using h
  have hmem := foldr_max_mem _ hmap
  rcases List.mem_map.mp hmem with ⟨v, hv, hcount⟩
  intro hnil
  have : v ∈ modeCandidates vs := by
    unfold modeCandidates
    exact List.mem_filter.mpr ⟨hv, by simp [modeCount, hcount]⟩
  rw [hnil] at this
  cases this

lemma modeVal_mem_candidates {vs : List ℚ} (h : vs ≠ []) :
    modeVal vs ∈ modeCandidates vs := by
  have hne := modeCandidates_ne_nil h
  unfold modeVal
  cases hc : modeCandidates vs with
  | nil => exact absurd hc hne
  | cons x xs =>
    have := foldl_min_mem xs x
    rw [← hc] at this
    simpa [hc] using this

lemma count_modeVal {vs : List ℚ} (h : vs ≠ []) :
    vs.count (modeVal vs) = modeCount vs := by
  have := modeVal_mem_candidates h
  have := List.of_mem_filter this
  simpa using this

lemma modeVal_count_max {vs : List ℚ} (h : vs ≠ []) (v : ℚ) (hv : v ∈ vs) :
    vs.count v ≤ vs.count (modeVal vs) := by
  rw [count_modeVal h]
  exact count_le_modeCount hv

/-- The fat-mass values of one subject's filtered rows. -/
def fatValues (df : List LFRow) (i : Nat) : List ℚ :=
  subjectValues (filtered_lean_fat_data df) i LFRow.total_fat_mass

/-- The lean-mass values of one subject's filtered rows. -/
def leanValues (df : List LFRow) (i : Nat) : List ℚ :=
  subjectValues (filtered_lean_fat_data df) i LFRow.total_lean_mass

lemma subjectValues_ne_nil {df : List LFRow} {i : Nat} (f : LFRow → Option ℚ)
    (hf : ∀ r, validLF r = true → (f r).isSome)
    (h : i ∈ (filtered_lean_fat_data df).map LFRow.id) :
    subjectValues (filtered_lean_fat_data df) i f ≠ [] := by
  rcases List.mem_map.mp h with ⟨r, hr, hid⟩
  have hv : validLF r := List.of_mem_filter hr
  obtain ⟨v, hval⟩ := Option.isSome_iff_exists.mp (hf r hv)
  intro hnil
  have hmem : v ∈ subjectValues (filtered_lean_fat_data df) i f := by
    unfold subjectValues
    refine List.mem_filterMap.mpr ⟨r, ?_, hval⟩
    exact List.mem_filter.mpr ⟨hr, by simp [hid]⟩
  rw [hnil] at hmem
  cases hmem

lemma fatValues_ne_nil {df : List LFRow} {i : Nat}
    (h : i ∈ (filtered_lean_fat_data df).map LFRow.id) : fatValues df i ≠ [] := by
  refine subjectValues_ne_nil _ ?_ h
  intro r hv
  simp only [validLF, Bool.and_eq_true] at hv
  exact hv.1.2

lemma leanValues_ne_nil {df : List LFRow} {i : Nat}
    (h : i ∈ (filtered_lean_fat_data df).map LFRow.id) : leanValues df i ≠ [] := by
  refine subjectValues_ne_nil _ ?_ h
  intro r hv
  simp only [validLF, Bool.and_eq_true] at hv
  exact hv.2

lemma aggValue_of_mode {vs : List ℚ} (h : vs ≠ [])
    (hc : 1 < vs.count (modeVal vs)) : aggValue vs = modeVal vs := by
  unfold aggValue
  rw [if_pos]
  rw [count_modeVal h] at hc
  exact hc

lemma aggValue_of_mean {vs : List ℚ} (h : vs ≠ [])
    (hc : vs.count (modeVal vs) ≤ 1) : aggValue vs = mean vs := by
  unfold aggValue
  rw [if_neg]
  rw [count_modeVal h] at hc
  omega

/-- C1: for every subject of the filtered Lean/Fat Mass table, the
aggregated table holds a row for that subject whose fat-mass (and
likewise lean-mass) value is the subject's modal value when the
greatest value-frequency exceeds one, and the arithmetic mean of the
subject's values otherwise. -/
theorem aggregated_mode_mean (df : List LFRow) (i : Nat)
    (hi : i ∈ (filtered_lean_fat_data df).map LFRow.id) :
    ∃ r ∈ aggregated_lean_fat_data df, r.id = i ∧
      (∀ v ∈ fatValues df i,
        (fatValues df i).count v ≤ (fatValues df i).count (modeVal (fatValues df i))) ∧
      (1 < (fatValues df i).count (modeVal (fatValues df i)) →
        r.total_fat_mass = modeVal (fatValues df i)) ∧
      ((fatValues df i).count (modeVal (fatValues df i)) ≤ 1 →
        r.total_fat_mass = mean (fatValues df i)) ∧
      (∀ v ∈ leanValues df i,
        (leanValues df i).count v ≤ (leanValues df i).count (modeVal (leanValues df i))) ∧
      (1 < (leanValues df i).count (modeVal (leanValues df i)) →
        r.total_lean_mass = modeVal (leanValues df i)) ∧
      ((leanValues df i).count (modeVal (leanValues df i)) ≤ 1 →
        r.total_lean_mass = mean (leanValues df i)) := by
  have hded : i ∈ ((filtered_lean_fat_data df).map LFRow.id).dedup :=
    List.mem_dedup.mpr hi
  have hfne := fatValues_ne_nil hi
  have hlne := leanValues_ne_nil hi
  refine ⟨_, List.mem_map.mpr ⟨i, hded, rfl⟩, rfl, ?_, ?_, ?_, ?_, ?_, ?_⟩
  · exact fun v hv => modeVal_count_max hfne v hv
  · exact fun hc => aggValue_of_mode hfne hc
  · exact fun hc => aggValue_of_mean hfne hc
  · exact fun v hv => modeVal_count_max hlne v hv
  · exact fun hc => aggValue_of_mode hlne hc
  · exact fun hc => aggValue_of_mean hlne hc

/-- Concrete Lean/Fat Mass table: subject 1 has fat values 5,5,5,3,2
(mode 5 repeated) and lean values 20,21,22,23,24 (all distinct). -/
def dfC1 : List LFRow :=
  [⟨1, some 1, some 5, some 20⟩,
   ⟨1, some 1, some 5, some 21⟩,
   ⟨1, some 1, some 5, some 22⟩,
   ⟨1, some 1, some 3, some 23⟩,
   ⟨1, some 1, some 2, some 24⟩]

/-- Witness for C1 at a concrete table. -/
theorem aggregated_mode_mean_witness :
    (1 ∈ (filtered_lean_fat_data dfC1).map LFRow.id) ∧
    (∃ r ∈ aggregated_lean_fat_data dfC1, r.id = 1 ∧
      (∀ v ∈ fatValues dfC1 1,
        (fatValues dfC1 1).count v ≤ (fatValues dfC1 1).count (modeVal (fatValues dfC1 1))) ∧
      (1 < (fatValues dfC1 1).count (modeVal (fatValues dfC1 1)) →
        r.total_fat_mass = modeVal (fatValues dfC1 1)) ∧
      ((fatValues dfC1 1).count (modeVal (fatValues dfC1 1)) ≤ 1 →
        r.total_fat_mass = mean (fatValues dfC1 1)) ∧
      (∀ v ∈ leanValues dfC1 1,
        (leanValues dfC1 1).count v ≤ (leanValues dfC1 1).count (modeVal (leanValues dfC1 1))) ∧
      (1 < (leanValues dfC1 1).count (modeVal (leanValues dfC1 1)) →
        r.total_lean_mass = modeVal (leanValues dfC1 1)) ∧
      ((leanValues dfC1 1).count (modeVal (leanValues dfC1 1)) ≤ 1 →
        r.total_lean_mass = mean (leanValues dfC1 1))) :=
  ⟨by decide, aggregated_mode_mean dfC1 1 (by decide)⟩

/-! ## Age banding

The notebook derives `age_group` with
`pd.cut(age_in_months / 12, bins=[16, 26, 36, 46, 56, 65],
labels=['16-26','26-36','36-46','46-56','56-65'], right=False)`;
an age outside every bin gets pandas `NaN`, embedded as `none`. -/

/-- The derived age band of an age in years. -/
def age_group (a : ℚ) : Option String :=
  if 16 ≤ a ∧ a < 26 then some "16-26"
  else if 26 ≤ a ∧ a < 36 then some "26-36"
  else if 36 ≤ a ∧ a < 46 then some "36-46"
  else if 46 ≤ a ∧ a < 56 then some "46-56"
  else if 56 ≤ a ∧ a < 65 then some "56-65"
  else none

/-- C2 counterexample: the age 65 lies in the interval `[16, 66)` claimed
to be covered, yet it falls into no age band — the bins stop at 65, so the
bands cover `[16, 65)` only and the last band spans nine years. -/
theorem age_group_claim_counterexample :
    (16 ≤ (65 : ℚ) ∧ (65 : ℚ) < 66) ∧ age_group 65 = none := by
  constructor
  · constructor <;> norm_num
  · decide

/-- C2 (amended): the splitter classifies exactly the ages in `[16, 65)`,
each into the unique half-open band containing it, the bands being
`[16,26)`, `[26,36)`, `[36,46)`, `[46,56)` and `[56,65)` — the first four
spanning ten years and the last spanning nine; every age outside
`[16, 65)` receives no band. -/
theorem age_group_bands (a : ℚ) :
    ((age_group a).isSome ↔ (16 ≤ a ∧ a < 65)) ∧
    (age_group a = some "16-26" ↔ 16 ≤ a ∧ a < 26) ∧
    (age_group a = some "26-36" ↔ 26 ≤ a ∧ a < 36) ∧
    (age_group a = some "36-46" ↔ 36 ≤ a ∧ a < 46) ∧
    (age_group a = some "46-56" ↔ 46 ≤ a ∧ a < 56) ∧
    (age_group a = some "56-65" ↔ 56 ≤ a ∧ a < 65) := by
  unfold age_group
  split_ifs with h1 h2 h3 h4 h5 <;> simp_all
  all_goals try obtain ⟨g1, g2⟩ := h1
  all_goals try obtain ⟨g1, g2⟩ := h2
  all_goals try obtain ⟨g1, g2⟩ := h3
  all_goals try obtain ⟨g1, g2⟩ := h4
  all_goals try obtain ⟨g1, g2⟩ := h5
  all_goals repeat' apply And.intro
  all_goals try intro hy
  all_goals first
    | linarith
    | exact h5 (h4 (h3 (h2 (h1 hy))))

/-! ## Three-way inner join

The notebook computes
`body_measurements.merge(demographic_data, on='id', how='inner')
.merge(aggregated_lean_fat_df, on='id', how='inner')`. -/

/-- Pandas `DataFrame.merge(..., on='id', how='inner')` over list-embedded
tables: each left row pairs with every right row sharing its key, in left
row order. -/
def inner_merge {α β : Type} (ida : α → Nat) (idb : β → Nat)
    (A : List α) (B : List β) : List (α × β) :=
  A.flatMap (fun a => (B.filter (fun b => idb b == ida a)).map (fun b => (a, b)))

/-- The merged health table: the three-way inner join of the
body-measurement, demographic and aggregated-mass tables on the subject
identifier. -/
def merged_health_data {α β γ : Type} (ida : α → Nat) (idb : β → Nat) (idc : γ → Nat)
    (A : List α) (B : List β) (C : List γ) : List ((α × β) × γ) :=
  inner_merge (fun p => ida p.1) idc (inner_merge ida idb A B) C

lemma filter_key_length {β : Type} (idb : β → Nat) (B : List β)
    (hB : (B.map idb).Nodup) (i : Nat) :
    (B.filter (fun b => idb b == i)).length = if i ∈ B.map idb then 1 else 0 := by
  induction B with
  | nil => simp
  | cons b bs ih =>
    simp only [List.map_cons, List.nodup_cons] at hB
    obtain ⟨hnotin, hnd⟩ := hB
    by_cases hb : idb b = i
    · have hnil : bs.filter (fun x => idb x == i) = [] := by
        refine List.filter_eq_nil_iff.mpr ?_
        intro x hx
        simp only [beq_iff_eq]
        intro hxi
        exact hnotin (hb ▸ hxi ▸ List.mem_map.mpr ⟨x, hx, rfl⟩)
      simp [List.filter_cons, hb, hnil]
    · simp only [List.filter_cons, List.map_cons, List.mem_cons]
      have hfalse : (idb b == i) = false := by simp [hb]
      rw [hfalse]
      simp only [Bool.false_eq_true, if_false]
      rw [ih hnd]
      have hne : ¬ i = idb b := fun h => hb h.symm
      simp [hne]

lemma inner_merge_length_countP {α β : Type} (ida : α → Nat) (idb : β → Nat)
    (A : List α) (B : List β) (hB : (B.map idb).Nodup) :
    (inner_merge ida idb A B).length = A.countP (fun a => decide (ida a ∈ B.map idb)) := by
  induction A with
  | nil => rfl
  | cons a as ih =>
    simp only [inner_merge, List.flatMap_cons, List.length_append, List.length_map] at *
    rw [ih, filter_key_length idb B hB (ida a), List.countP_cons]
    by_cases h : ida a ∈ B.map idb <;> simp [h] <;> omega

lemma inner_merge_countP {α β : Type} (ida : α → Nat) (idb : β → Nat)
    (A : List α) (B : List β) (hB : (B.map idb).Nodup) (q : Nat → Bool) :
    (inner_merge ida idb A B).countP (fun p => q (ida p.1)) =
      A.countP (fun a => decide (ida a ∈ B.map idb) && q (ida a)) := by
  induction A with
  | nil => rfl
  | cons a as ih =>
    simp only [inner_merge, List.flatMap_cons, List.countP_append] at *
    rw [ih, List.countP_cons, List.countP_map]
    have hconst : (List.countP ((fun p => q (ida (Prod.fst p))) ∘ (fun b => (a, b)))
        (B.filter (fun b => idb b == ida a)))
        = if q (ida a) then (B.filter (fun b => idb b == ida a)).length else 0 := by
      cases hq : q (ida a) <;> simp [Function.comp, hq, List.countP_eq_length_filter]
    rw [hconst, filter_key_length idb B hB (ida a)]
    by_cases h : ida a ∈ B.map idb <;> cases hq : q (ida a) <;> simp [h, hq] <;> omega

/-- C3: with the subject identifier unique in each input table, the
three-way inner join has exactly one output row per identifier present in
all three tables, and its row count never exceeds any input's row count
(in particular the smallest one's). -/
theorem merged_health_data_count {α β γ : Type} (ida : α → Nat) (idb : β → Nat) (idc : γ → Nat)
    (A : List α) (B : List β) (C : List γ)
    (hA : (A.map ida).Nodup) (hB : (B.map idb).Nodup) (hC : (C.map idc).Nodup) :
    (merged_health_data ida idb idc A B C).length =
      ((A.map ida).filter
        (fun i => decide (i ∈ B.map idb) && decide (i ∈ C.map idc))).length ∧
    (merged_health_data ida idb idc A B C).length ≤ A.length ∧
    (merged_health_data ida idb idc A B C).length ≤ B.length ∧
    (merged_health_data ida idb idc A B C).length ≤ C.length := by
  have hmain : (merged_health_data ida idb idc A B C).length =
      A.countP (fun a => decide (ida a ∈ B.map idb) && decide (ida a ∈ C.map idc)) := by
    unfold merged_health_data
    rw [inner_merge_length_countP _ idc _ C hC]
    exact inner_merge_countP ida idb A B hB (fun i => decide (i ∈ C.map idc))
  have hfilter : ((A.map ida).filter
      (fun i => decide (i ∈ B.map idb) && decide (i ∈ C.map idc))).length =
      A.countP (fun a => decide (ida a ∈ B.map idb) && decide (ida a ∈ C.map idc)) := by
    rw [← List.countP_eq_length_filter, List.countP_map]
    rfl
  have heq := hmain.trans hfilter.symm
  refine ⟨heq, ?_, ?_, ?_⟩
  · rw [hmain]; exact List.countP_le_length _
  · rw [heq]
    have hnd : ((A.map ida).filter
        (fun i => decide (i ∈ B.map idb) && decide (i ∈ C.map idc))).Nodup :=
      hA.filter _
    have hsub : ((A.map ida).filter
        (fun i => decide (i ∈ B.map idb) && decide (i ∈ C.map idc))) ⊆ B.map idb := by
      intro x hx
      have hp := List.of_mem_filter hx
      simp only [Bool.and_eq_true, decide_eq_true_eq] at hp
      exact hp.1
    calc ((A.map ida).filter _).length ≤ (B.map idb).length := (hnd.subperm hsub).length_le
      _ = B.length := List.length_map _ _
  · rw [heq]
    have hnd : ((A.map ida).filter
        (fun i => decide (i ∈ B.map idb) && decide (i ∈ C.map idc))).Nodup :=
      hA.filter _
    have hsub : ((A.map ida).filter
        (fun i => decide (i ∈ B.map idb) && decide (i ∈ C.map idc))) ⊆ C.map idc := by
      intro x hx
      have hp := List.of_mem_filter hx
      simp only [Bool.and_eq_true, decide_eq_true_eq] at hp
      exact hp.2
    calc ((A.map ida).filter _).length ≤ (C.map idc).length := (hnd.subperm hsub).length_le
      _ = C.length := List.length_map _ _

/-- Witness for C3 at concrete tables with identifiers [1,2,3], [2,3,4]
and [3,5]: only identifier 3 appears in all three. -/
theorem merged_health_data_count_witness :
    ([1, 2, 3].map (fun x => x)).Nodup ∧
    (merged_health_data (fun x => x) (fun x => x) (fun x => x)
        ([1, 2, 3] : List Nat) ([2, 3, 4] : List Nat) ([3, 5] : List Nat)).length =
      (([1, 2, 3].map (fun x : Nat => x)).filter
        (fun i => decide (i ∈ [2, 3, 4].map (fun x : Nat => x)) &&
          decide (i ∈ [3, 5].map (fun x : Nat => x)))).length ∧
    (merged_health_data (fun x => x) (fun x => x) (fun x => x)
        ([1, 2, 3] : List Nat) ([2, 3, 4] : List Nat) ([3, 5] : List Nat)).length ≤ 3 :=
  ⟨by decide,
    (merged_health_data_count (fun x => x) (fun x => x) (fun x => x) [1, 2, 3] [2, 3, 4] [3, 5]
      (by decide) (by decide) (by decide)).1,
    (merged_health_data_count (fun x => x) (fun x => x) (fun x => x) [1, 2, 3] [2, 3, 4] [3, 5]
      (by decide) (by decide) (by decide)).2.1⟩

/-! ## Range validation

`filter_unrealistic_values` walks the `valid_ranges` table in dict order;
for each column it first counts the rows of the current table with
`(df[column] < min_val) | (df[column] > max_val)` (the reported count) and
then keeps the rows with `(df[column] >= min_val) & (df[column] <= max_val)`.
Pandas comparisons with `NaN` are false on both sides, so a missing cell
is never counted but always removed. -/

/-- The nine columns covered by the `valid_ranges` table. -/
inductive Col
  | weight | height | bmi | upper_leg_length | maximal_calf_circumference
  | upper_arm_length | arm_circumference | waist_circumference | thigh_circumference
deriving DecidableEq

/-- A row of the cleaned health table, restricted to the columns the range
table covers; a cell may be missing (`NaN`). -/
structure HRow where
  weight : Option ℚ
  height : Option ℚ
  bmi : Option ℚ
  upper_leg_length : Option ℚ
  maximal_calf_circumference : Option ℚ
  upper_arm_length : Option ℚ
  arm_circumference : Option ℚ
  waist_circumference : Option ℚ
  thigh_circumference : Option ℚ
deriving DecidableEq

/-- Column access on a row. -/
def HRow.cell (r : HRow) : Col → Option ℚ
  | .weight => r.weight
  | .height => r.height
  | .bmi => r.bmi
  | .upper_leg_length => r.upper_leg_length
  | .maximal_calf_circumference => r.maximal_calf_circumference
  | .upper_arm_length => r.upper_arm_length
  | .arm_circumference => r.arm_circumference
  | .waist_circumference => r.waist_circumference
  | .thigh_circumference => r.thigh_circumference

/-- The table of plausible inclusive ranges, `(min_val, max_val)` per column. -/
def valid_ranges : Col → ℚ × ℚ
  | .weight => (30, 300)
  | .height => (100, 250)
  | .bmi => (10, 60)
  | .upper_leg_length => (30, 100)
  | .maximal_calf_circumference => (20, 60)
  | .upper_arm_length => (20, 50)
  | .arm_circumference => (15, 60)
  | .waist_circumference => (50, 200)
  | .thigh_circumference => (30, 90)

/-- The iteration order of `valid_ranges.items()` (dict insertion order). -/
def rangeCols : List Col :=
  [.weight, .height, .bmi, .upper_leg_length, .maximal_calf_circumference,
   .upper_arm_length, .arm_circumference, .waist_circumference, .thigh_circumference]

/-- The keep condition `(df[column] >= min_val) & (df[column] <= max_val)`:
false for a missing cell. -/
def keepRow (c : Col) (r : HRow) : Bool :=
  match r.cell c with
  | some v => decide ((valid_ranges c).1 ≤ v) && decide (v ≤ (valid_ranges c).2)
  | none => false

/-- The counted condition `(df[column] < min_val) | (df[column] > max_val)`:
also false for a missing cell, so a missing cell is never counted. -/
def outsideRange (c : Col) (r : HRow) : Bool :=
  match r.cell c with
  | some v => decide (v < (valid_ranges c).1) || decide ((valid_ranges c).2 < v)
  | none => false

/-- The `invalid_count` reported for one column on the current table. -/
def invalid_count (c : Col) (df : List HRow) : Nat := df.countP (outsideRange c)

/-- The validation loop over a list of columns: returns the final table and
the per-column reported counts, in loop order. -/
def validateAux : List Col → List HRow → List HRow × List (Col × Nat)
  | [], df => (df, [])
  | c :: cs, df =>
    let res := validateAux cs (df.filter (keepRow c))
    (res.1, (c, invalid_count c df) :: res.2)

/-- The validated health table. -/
def filter_unrealistic_values (df : List HRow) : List HRow :=
  (validateAux rangeCols df).1

/-- The reported removed-count per column, in loop order. -/
def removed_counts (df : List HRow) : List (Col × Nat) :=
  (validateAux rangeCols df).2

lemma validateAux_fst_mem : ∀ (cs : List Col) (df : List HRow) (r : HRow),
    r ∈ (validateAux cs df).1 → r ∈ df := by
  intro cs
  induction cs with
  | nil => intro df r h; exact h
  | cons c cs ih =>
    intro df r h
    have := ih (df.filter (keepRow c)) r h
    exact List.mem_of_mem_filter this

lemma validateAux_keep : ∀ (cs : List Col) (df : List HRow) (r : HRow),
    r ∈ (validateAux cs df).1 → ∀ c ∈ cs, keepRow c r = true := by
  intro cs
  induction cs with
  | nil => intro df r _ c hc; cases hc
  | cons c0 cs ih =>
    intro df r h c hc
    rcases List.mem_cons.mp hc with h1 | h1
    · subst h1
      have hmem := validateAux_fst_mem cs (df.filter (keepRow c)) r h
      exact List.of_mem_filter hmem
    · exact ih (df.filter (keepRow c0)) r h c h1

/-- C4: every row surviving range validation has, in every covered column,
a present value within the declared inclusive bounds. -/
theorem filter_unrealistic_values_in_range (df : List HRow) (r : HRow)
    (hr : r ∈ filter_unrealistic_values df) (c : Col) :
    ∃ v, r.cell c = some v ∧ (valid_ranges c).1 ≤ v ∧ v ≤ (valid_ranges c).2 := by
  have hc : c ∈ rangeCols := by cases c <;> simp [rangeCols]
  have hk := validateAux_keep rangeCols df r hr c hc
  unfold keepRow at hk
  cases hcell : r.cell c with
  | none => rw [hcell] at hk; cases hk
  | some v =>
    rw [hcell] at hk
    simp only [Bool.and_eq_true, decide_eq_true_eq] at hk
    exact ⟨v, rfl, hk.1, hk.2⟩

/-- A row with every cell inside its range. -/
def rGood : HRow :=
  ⟨some 70, some 170, some 22, some 40, some 35, some 35, some 30, some 80, some 50⟩

/-- A row with weight and height both out of range. -/
def rBad : HRow :=
  ⟨some 500, some 999, some 22, some 40, some 35, some 35, some 30, some 80, some 50⟩

/-- A table with one fully plausible and one implausible row. -/
def dfC4 : List HRow := [rGood, rBad]

/-- Witness for C4 at a concrete table. -/
theorem filter_unrealistic_values_in_range_witness :
    (rGood ∈ filter_unrealistic_values dfC4) ∧
    ∃ v, rGood.cell Col.weight = some v ∧
      (valid_ranges Col.weight).1 ≤ v ∧ v ≤ (valid_ranges Col.weight).2 :=
  ⟨by decide, filter_unrealistic_values_in_range dfC4 rGood (by decide) Col.weight⟩

lemma validateAux_counts : ∀ (cs : List Col) (df : List HRow) (i : Nat) (c : Col),
    cs[i]? = some c →
    (validateAux cs df).2[i]? =
      some (c, ((cs.take i).foldl (fun d c' => d.filter (keepRow c')) df).countP
        (outsideRange c)) := by
  intro cs
  induction cs with
  | nil => intro df i c h; simp at h
  | cons c0 cs ih =>
    intro df i c h
    cases i with
    | zero =>
      simp only [List.getElem?_cons_zero, Option.some.injEq] at h
      subst h
      simp [validateAux, invalid_count]
    | succ i =>
      simp only [List.getElem?_cons_succ] at h
      have hstep := ih (df.filter (keepRow c0)) i c h
      simpa [validateAux, List.take_succ_cons, List.foldl_cons] using hstep

/-- C5: the i-th reported count is the number of rows that survived the
filters of all earlier columns and whose value in the i-th column is
strictly outside its range, so a row removed by an earlier column's rule
is never re-reported by a later rule. -/
theorem removed_counts_sequential (df : List HRow) (i : Nat) (c : Col)
    (hc : rangeCols[i]? = some c) :
    (removed_counts df)[i]? =
      some (c, ((rangeCols.take i).foldl (fun d c' => d.filter (keepRow c')) df).countP
        (outsideRange c)) :=
  validateAux_counts rangeCols df i c hc

/-- Witness for C5: at step 1 (height) the row already removed for its
weight is no longer present, so it is not re-reported. -/
theorem removed_counts_sequential_witness :
    (rangeCols[1]? = some Col.height) ∧
    (removed_counts dfC4)[1]? =
      some (Col.height, ((rangeCols.take 1).foldl (fun d c' => d.filter (keepRow c')) dfC4).countP
        (outsideRange Col.height)) :=
  ⟨by decide, removed_counts_sequential dfC4 1 Col.height (by decide)⟩

/-- C9: a row with a missing value in a covered column fails that column's
keep condition (hence is removed), while the reported count for that
column ignores every missing-valued row: it is unchanged when they are
dropped from the table it is computed on. -/
theorem nan_removed_not_counted (df : List HRow) (c : Col) (r : HRow)
    (hr : r ∈ df) (hnan : r.cell c = none) :
    keepRow c r = false ∧
    r ∉ df.filter (keepRow c) ∧
    invalid_count c df = invalid_count c (df.filter (fun x => (x.cell c).isSome)) := by
  have hkeep : keepRow c r = false := by
    unfold keepRow
    rw [hnan]
  refine ⟨hkeep, ?_, ?_⟩
  · intro hmem
    have := List.of_mem_filter hmem
    rw [hkeep] at this
    cases this
  · unfold invalid_count
    rw [List.countP_filter]
    refine (List.countP_congr ?_).symm
    intro x _
    cases hx : x.cell c with
    | none => simp [outsideRange, hx]
    | some v => simp [outsideRange, hx]

/-- A row whose weight cell is missing. -/
def rNaN : HRow :=
  ⟨none, some 170, some 22, some 40, some 35, some 35, some 30, some 80, some 50⟩

/-- A table with a missing-weight row and a plausible row. -/
def dfC9 : List HRow := [rNaN, rGood]

/-- Witness for C9 at a concrete table. -/
theorem nan_removed_not_counted_witness :
    keepRow Col.weight rNaN = false ∧
    rNaN ∉ dfC9.filter (keepRow Col.weight) ∧
    invalid_count Col.weight dfC9 =
      invalid_count Col.weight (dfC9.filter (fun x => (x.cell Col.weight).isSome)) :=
  nan_removed_not_counted dfC9 Col.weight rNaN (by decide) (by decide)

/-! ## Stratified 70/30 split

Modelled from the spec: the split itself is scikit-learn's
`train_test_split(..., test_size=0.30, random_state=42, stratify=...)`,
whose implementation is external to this repository.  Per the spec it
performs a reproducible random split into two disjoint tables; we model
the seeded pseudo-random draw as an arbitrary selection `pick` of row
positions for the test table. -/

/-- Position-indexed partition of the rows: position `i` goes to the test
table when `pick i` holds, else to the train table. -/
def splitAux {α : Type} (pick : Nat → Bool) : Nat → List α → List α × List α
  | _, [] => ([], [])
  | i, a :: as =>
    let res := splitAux pick (i + 1) as
    if pick i then (res.1, a :: res.2) else (a :: res.1, res.2)

/-- Modelled from the spec: `train_test_split` returns the
(train, test) pair of tables. -/
def train_test_split {α : Type} (pick : Nat → Bool) (rows : List α) : List α × List α :=
  splitAux pick 0 rows

lemma splitAux_perm {α : Type} (pick : Nat → Bool) :
    ∀ (n : Nat) (rows : List α),
    ((splitAux pick n rows).1 ++ (splitAux pick n rows).2).Perm rows := by
  intro n rows
  induction rows generalizing n with
  | nil => simp [splitAux]
  | cons a as ih =>
    cases hp : pick n
    · simpa [splitAux, hp] using (ih (n + 1)).cons a
    · have hmid : ((splitAux pick (n + 1) as).1 ++ a :: (splitAux pick (n + 1) as).2).Perm
          (a :: ((splitAux pick (n + 1) as).1 ++ (splitAux pick (n + 1) as).2)) :=
        List.perm_middle
      have := hmid.trans ((ih (n + 1)).cons a)
      simpa [splitAux, hp] using this

/-- C6: when subject identifiers are unique in the input, the split
produces identifier-disjoint train and test tables whose identifiers,
as a multiset (permutation), are exactly the input's identifiers. -/
theorem train_test_split_partition {α : Type} (key : α → Nat) (pick : Nat → Bool)
    (rows : List α) (hnd : (rows.map key).Nodup) :
    List.Disjoint ((train_test_split pick rows).1.map key)
      ((train_test_split pick rows).2.map key) ∧
    (((train_test_split pick rows).1 ++ (train_test_split pick rows).2).map key).Perm
      (rows.map key) := by
  have hperm : ((train_test_split pick rows).1 ++ (train_test_split pick rows).2).Perm rows :=
    splitAux_perm pick 0 rows
  have hmap := hperm.map key
  refine ⟨?_, hmap⟩
  have hnodup := (hmap.nodup_iff).mpr hnd
  rw [List.map_append] at hnodup
  exact (List.nodup_append.mp hnodup).2.2

/-- Witness for C6 at a concrete three-row table. -/
theorem train_test_split_partition_witness :
    (([10, 20, 30] : List Nat).map (fun x => x)).Nodup ∧
    (List.Disjoint ((train_test_split (fun n => n % 2 == 0) [10, 20, 30]).1.map (fun x => x))
      ((train_test_split (fun n => n % 2 == 0) [10, 20, 30]).2.map (fun x => x)) ∧
    (((train_test_split (fun n => n % 2 == 0) [10, 20, 30]).1 ++
        (train_test_split (fun n => n % 2 == 0) [10, 20, 30]).2).map (fun x => x)).Perm
      (([10, 20, 30] : List Nat).map (fun x => x))) :=
  ⟨by decide,
    train_test_split_partition (fun x => x) (fun n => n % 2 == 0) [10, 20, 30] (by decide)⟩

/-! ## Collapsing rare strata

The notebook computes `group_counts = validated['stratify_group'].value_counts()`
and replaces every key `x` with `group_counts[x] < 2` by `'Other'`.
Per the spec, the stratified splitter fails with a single-member-group
error exactly when some stratum of the column it is given has fewer than
two members; `stratify_feasible` models that (external) feasibility
condition. -/

/-- The collapsed stratification column. -/
def collapse_rare (keys : List String) : List String :=
  keys.map (fun k => if 2 ≤ keys.count k then k else "Other")

/-- Modelled from the spec: the external stratified splitter succeeds
exactly when every stratum present has at least two members. -/
def stratify_feasible (keys : List String) : Bool :=
  keys.all (fun k => 2 ≤ keys.count k)

/-- C7 counterexample: with strata `["A", "A", "B"]` the singleton key
`"B"` is collapsed into `"Other"`, but `"Other"` itself then occurs only
once, so the collapsed column still has a single-member stratum and the
split fails — the claim's "the split does not fail" part is false. -/
theorem collapse_rare_counterexample :
    collapse_rare ["A", "A", "B"] = ["A", "A", "Other"] ∧
    stratify_feasible (collapse_rare ["A", "A", "B"]) = false := by decide

lemma count_map_eq_countP {α β : Type} [DecidableEq α] [DecidableEq β]
    (f : α → β) (l : List α) (x : β) :
    (l.map f).count x = l.countP (fun a => f a == x) := by
  induction l with
  | nil => rfl
  | cons a as ih =>
    simp only [List.map_cons, List.count_cons, List.countP_cons, ih]

/-- C7 (amended): every key occurring fewer than twice is replaced by the
shared fallback `"Other"`, so a singleton key never appears as its own
group after collapsing; and provided the number of singleton occurrences
is not exactly one (in which case the fallback stratum itself would be a
singleton), the collapsed column has no single-member stratum, so the
split cannot fail with a single-member-group error. -/
theorem collapse_rare_amended (keys : List String)
    (hother : "Other" ∉ keys)
    (hsing : keys.countP (fun k => decide (keys.count k < 2)) ≠ 1) :
    (∀ k ∈ keys, keys.count k = 1 → k ∉ collapse_rare keys) ∧
    stratify_feasible (collapse_rare keys) = true := by
  constructor
  · intro k hk hk1 hmem
    rcases List.mem_map.mp hmem with ⟨j, hj, hfj⟩
    by_cases hj2 : 2 ≤ keys.count j
    · rw [if_pos hj2] at hfj
      subst hfj
      omega
    · rw [if_neg hj2] at hfj
      exact hother (hfj ▸ hk)
  · rw [stratify_feasible, List.all_eq_true]
    intro x hx
    rcases List.mem_map.mp hx with ⟨j, hj, hfj⟩
    by_cases hj2 : 2 ≤ keys.count j
    · rw [if_pos hj2] at hfj
      subst hfj
      have hge : keys.count j ≤ (collapse_rare keys).count j := by
        rw [collapse_rare, count_map_eq_countP, List.count_eq_countP]
        refine List.countP_mono_left ?_
        intro a ha haj
        simp only [beq_iff_eq] at haj ⊢
        subst haj
        rw [if_pos hj2]
      simp only [decide_eq_true_eq]
      omega
    · rw [if_neg hj2] at hfj
      subst hfj
      have hcount : (collapse_rare keys).count "Other" =
          keys.countP (fun k => decide (keys.count k < 2)) := by
        rw [collapse_rare, count_map_eq_countP]
        refine List.countP_congr ?_
        intro a ha
        constructor
        · intro haeq
          simp only [beq_iff_eq] at haeq
          by_cases ha2 : 2 ≤ keys.count a
          · rw [if_pos ha2] at haeq
            exact absurd (haeq ▸ ha) hother
          · simp only [decide_eq_true_eq]
            omega
        · intro halt
          simp only [decide_eq_true_eq] at halt
          simp only [beq_iff_eq]
          rw [if_neg]
          omega
      have hpos : 0 < keys.countP (fun k => decide (keys.count k < 2)) :=
        List.countP_pos_iff.mpr ⟨j, hj, by simp; omega⟩
      simp only [decide_eq_true_eq]
      omega

/-- Witness for the amended C7: two distinct singleton keys both collapse
into `"Other"`, which then has two members. -/
theorem collapse_rare_amended_witness :
    ("Other" ∉ ["A", "A", "B", "C"]) ∧
    ((∀ k ∈ ["A", "A", "B", "C"], (["A", "A", "B", "C"] : List String).count k = 1 →
        k ∉ collapse_rare ["A", "A", "B", "C"]) ∧
      stratify_feasible (collapse_rare ["A", "A", "B", "C"]) = true) :=
  ⟨by decide, collapse_rare_amended ["A", "A", "B", "C"] (by decide) (by decide)⟩

/-! ## XPT-to-CSV converter

The converter computes the requested columns missing from the source
schema, prints one warning naming them if any, then writes one output
row per source record; a cell whose source column is absent from the
schema gets the literal text "nan", and otherwise
`getattr(row, old_name, "nan")`.  The console/file output is embedded as
an event trace. -/

/-- An observable output event of one conversion. -/
inductive ConvEvent
  | warn (missing : List String)
  | rowOut (cells : List String)
deriving DecidableEq

/-- One output cell:
`getattr(row, old_name, "nan") if old_name in available_fields else "nan"`.
A record is embedded as a partial map from field name to text value. -/
def cellValue (schema : List String) (row : String → Option String) (old : String) : String :=
  if old ∈ schema then (row old).getD "nan" else "nan"

/-- The event trace of `convert_xpt_to_csv`: the missing-columns warning
(if any) precedes all data rows. -/
def convert_xpt_to_csv (columns_to_save new_columns : List String)
    (schema : List String) (rows : List (String → Option String)) : List ConvEvent :=
  (if (columns_to_save.filter (fun c => decide (c ∉ schema))).isEmpty then []
    else [ConvEvent.warn (columns_to_save.filter (fun c => decide (c ∉ schema)))]) ++
  rows.map (fun r =>
    ConvEvent.rowOut ((columns_to_save.zip new_columns).map (fun p => cellValue schema r p.1)))

/-- C8: when a requested source column is absent from the schema, the
trace is exactly one warning naming exactly the absent columns, followed
by the data rows; the absent column's cell is the text "nan" in every
row, while every column present in the schema keeps its per-record
value. -/
theorem convert_missing_column (cols newCols schema : List String)
    (rows : List (String → Option String)) (c : String)
    (hc : c ∈ cols) (habs : c ∉ schema) :
    convert_xpt_to_csv cols newCols schema rows =
      ConvEvent.warn (cols.filter (fun x => decide (x ∉ schema))) ::
        rows.map (fun r =>
          ConvEvent.rowOut ((cols.zip newCols).map (fun p => cellValue schema r p.1))) ∧
    c ∈ cols.filter (fun x => decide (x ∉ schema)) ∧
    (∀ r, cellValue schema r c = "nan") ∧
    (∀ r old, old ∈ schema → cellValue schema r old = (r old).getD "nan") := by
  have hcm : c ∈ cols.filter (fun x => decide (x ∉ schema)) :=
    List.mem_filter.mpr ⟨hc, by simpa using habs⟩
  have hne : (cols.filter (fun x => decide (x ∉ schema))).isEmpty = false :=
    List.isEmpty_eq_false.mpr (List.ne_nil_of_mem hcm)
  refine ⟨?_, hcm, ?_, ?_⟩
  · unfold convert_xpt_to_csv
    rw [hne]
    simp
  · intro r
    unfold cellValue
    rw [if_neg habs]
  · intro r old hold
    unfold cellValue
    rw [if_pos hold]

/-- A source record having only the field `SEQN`. -/
def rowC8 : String → Option String := fun f => if f = "SEQN" then some "1" else none

/-- Witness for C8: requesting `SEQN` and `BMAAMP` from a schema holding
only `SEQN` (the 1999-2000 body-measures file really lacks `BMAAMP`). -/
theorem convert_missing_column_witness :
    ("BMAAMP" ∈ ["SEQN", "BMAAMP"]) ∧
    (convert_xpt_to_csv ["SEQN", "BMAAMP"] ["id", "amputation"] ["SEQN"] [rowC8] =
      ConvEvent.warn (["SEQN", "BMAAMP"].filter (fun x => decide (x ∉ ["SEQN"]))) ::
        [rowC8].map (fun r =>
          ConvEvent.rowOut (((["SEQN", "BMAAMP"].zip ["id", "amputation"])).map
            (fun p => cellValue ["SEQN"] r p.1))) ∧
    "BMAAMP" ∈ ["SEQN", "BMAAMP"].filter (fun x => decide (x ∉ ["SEQN"])) ∧
    (∀ r, cellValue ["SEQN"] r "BMAAMP" = "nan") ∧
    (∀ r old, old ∈ ["SEQN"] → cellValue ["SEQN"] r old = (r old).getD "nan")) :=
  ⟨by decide,
    convert_missing_column ["SEQN", "BMAAMP"] ["id", "amputation"] ["SEQN"] [rowC8] "BMAAMP"
      (by decide) (by decide)⟩

/-! ## Rows aged between 15 and 16 years

The inclusion filter keeps `15 <= age_in_months / 12 < 64`, but the age
bins start at 16, so such a row's band is `NaN`, rendered as the text
"nan" inside its stratification key. -/

/-- The age inclusion filter
`(age_in_months / 12 >= 15) & (age_in_months / 12 < 64)`. -/
def age_filter_keep (age_in_months : ℚ) : Bool :=
  decide (15 ≤ age_in_months / 12) && decide (age_in_months / 12 < 64)

/-- `classify_bmi` from the notebook. -/
def classify_bmi (b : ℚ) : String :=
  if b < 18.5 then "Underweight"
  else if 18.5 ≤ b ∧ b < 25 then "Healthy Weight"
  else if 25 ≤ b ∧ b < 30 then "Overweight"
  else if 30 ≤ b ∧ b < 35 then "Obese"
  else "Extremely Obese"

/-- `age_group.astype(str)`: pandas renders a missing band as the literal
text "nan". -/
def age_group_str (a : ℚ) : String := (age_group a).getD "nan"

/-- The derived stratification key (gender and ethnicity are already
rendered as text by `astype(str)`). -/
def stratify_group (ageYears : ℚ) (gender ethnicity : String) (bmi : ℚ) : String :=
  age_group_str ageYears ++ "_" ++ gender ++ "_" ++ ethnicity ++ "_" ++ classify_bmi bmi

/-- C10: a subject aged in `[15, 16)` years passes the age inclusion
filter, receives no age band, gets a stratification key whose age
component is the text "nan", and is still distributed into exactly the
train or the test table by the split. -/
theorem age_15_16_nan_strata (m : ℚ) (h15 : 15 ≤ m / 12) (h16 : m / 12 < 16) :
    age_filter_keep m = true ∧
    age_group (m / 12) = none ∧
    (∀ g e b, stratify_group (m / 12) g e b =
      "nan" ++ "_" ++ g ++ "_" ++ e ++ "_" ++ classify_bmi b) ∧
    (∀ (rows : List ℚ) (pick : Nat → Bool), m ∈ rows →
      m ∈ (train_test_split pick rows).1 ∨ m ∈ (train_test_split pick rows).2) := by
  have hnone : age_group (m / 12) = none := by
    unfold age_group
    split_ifs with h1 h2 h3 h4 h5
    · exact absurd h1.1 (by linarith)
    · exact absurd h2.1 (by linarith)
    · exact absurd h3.1 (by linarith)
    · exact absurd h4.1 (by linarith)
    · exact absurd h5.1 (by linarith)
    · rfl
  refine ⟨?_, hnone, ?_, ?_⟩
  · simp only [age_filter_keep, Bool.and_eq_true, decide_eq_true_eq]
    exact ⟨h15, by linarith⟩
  · intro g e b
    simp [stratify_group, age_group_str, hnone]
  · intro rows pick hmem
    have hperm := splitAux_perm pick 0 rows
    have hm : m ∈ (train_test_split pick rows).1 ++ (train_test_split pick rows).2 :=
      hperm.mem_iff.mpr hmem
    exact List.mem_append.mp hm

/-- Witness for C10 at 186 months (15.5 years). -/
theorem age_15_16_nan_strata_witness :
    age_filter_keep 186 = true ∧
    age_group ((186 : ℚ) / 12) = none ∧
    stratify_group ((186 : ℚ) / 12) "1.0" "3.0" 22 =
      "nan" ++ "_" ++ "1.0" ++ "_" ++ "3.0" ++ "_" ++ classify_bmi 22 ∧
    ((186 : ℚ) ∈ (train_test_split (fun n => n % 2 == 0) [(186 : ℚ), 200]).1 ∨
      (186 : ℚ) ∈ (train_test_split (fun n => n % 2 == 0) [(186 : ℚ), 200]).2) := by
  have h := age_15_16_nan_strata 186 (by norm_num) (by norm_num)
  exact ⟨h.1, h.2.1, h.2.2.1 "1.0" "3.0" 22, h.2.2.2 [186, 200] (fun n => n % 2 == 0) (by simp)⟩
